import Mathlib

/-!
# NYC Subway Anomaly Detection — verification of spec claims

Shallow embedding of the repository's score utilities (`ui/lib/utils.ts`),
base-path handling (`ui/lib/basePath.ts`), and the online anomaly-scoring
engine described by the spec (the worker code itself is not part of the
source tree here; those definitions are modelled from the spec's words and
marked as such). Numbers are embedded as rationals: no arithmetic in the
verified fragments depends on floating-point rounding, only on comparisons
and exact field operations, for which `ℚ` is a faithful stand-in for finite
IEEE doubles.
-/

namespace NycSubway

/-- A JavaScript value that can reach `clampScore` / `scoreBand`:
`null`, `undefined`, `NaN`, the two infinities, or a finite number. -/
inductive ScoreInput where
  | null : ScoreInput
  | undef : ScoreInput
  | nan : ScoreInput
  | posInf : ScoreInput
  | negInf : ScoreInput
  | num : ℚ → ScoreInput
deriving DecidableEq, Repr

/-- `clampScore` from `ui/lib/utils.ts`:
`score == null` (loose equality) catches both `null` and `undefined`;
`Number.isNaN` catches `NaN`; `-Infinity < 0` and `Infinity > 1` hold in JS,
so the infinities fall into the two clamp branches; a finite number is
clamped to `[0,1]` (`Number(score)` is the identity on numbers). -/
def clampScore : ScoreInput → ℚ
  | .null => 0
  | .undef => 0
  | .nan => 0
  | .negInf => 0
  | .posInf => 1
  | .num q => if q < 0 then 0 else if q > 1 then 1 else q

/-- Band identifiers from the `ScoreBand` type in `ui/lib/utils.ts`. -/
inductive BandId where
  | low : BandId
  | watch : BandId
  | elevated : BandId
  | critical : BandId
deriving DecidableEq, Repr

/-- The `ScoreBand` record type from `ui/lib/utils.ts`. -/
structure ScoreBand where
  id : BandId
  min : ℚ
  max : ℚ
  color : String
  label : String
  tone : String
deriving DecidableEq, Repr

/-- `SCORE_BANDS` from `ui/lib/utils.ts`, the single source of truth for
anomaly severity colors and thresholds. -/
def SCORE_BANDS : List ScoreBand :=
  [ ⟨.low, 0, 35/100, "#60a5fa", "0.00 - 0.34", "Low"⟩,
    ⟨.watch, 35/100, 6/10, "#facc15", "0.35 - 0.59", "Watch"⟩,
    ⟨.elevated, 6/10, 85/100, "#fb923c", "0.60 - 0.84", "Elevated"⟩,
    ⟨.critical, 85/100, 101/100, "#ef4444", "0.85 - 1.00", "Critical"⟩ ]

/-- The membership test of the `scoreBand` loop: `s >= b.min && s < b.max`. -/
def bandMatch (s : ℚ) (b : ScoreBand) : Bool :=
  decide (b.min ≤ s) && decide (s < b.max)

/-- `scoreBand` from `ui/lib/utils.ts`: clamp the score, return the first
band whose `[min,max)` interval contains it, with the last band
(`SCORE_BANDS[SCORE_BANDS.length - 1]`) as the fallback after the loop. -/
def scoreBand (score : ScoreInput) : ScoreBand :=
  match (SCORE_BANDS.find? (bandMatch (clampScore score))) with
  | some b => b
  | none => SCORE_BANDS.getLastD ⟨.low, 0, 35/100, "#60a5fa", "0.00 - 0.34", "Low"⟩

/-- `scoreToColor` from `ui/lib/utils.ts`. -/
def scoreToColor (score : ScoreInput) : String :=
  (scoreBand score).color

/-- `scoreToTone` from `ui/lib/utils.ts`. -/
def scoreToTone (score : ScoreInput) : String :=
  (scoreBand score).tone

/-- The clamped score is bounded in `[0,1]` whatever the input. -/
theorem clamp_unit (i : ScoreInput) :
    0 ≤ clampScore i ∧ clampScore i ≤ 1 := by
  cases i with
  | num q =>
      unfold clampScore
      by_cases h0 : q < 0
      · simp [h0]
      · by_cases h1 : q > 1
        · simp [h0, h1]
        · simp [h0, h1]
          constructor <;> linarith
  | _ => simp [clampScore]

/-- Claim C1 --- For every input (finite numbers of any sign and size, the
infinities, `NaN`, `null`, `undefined`), `clampScore` returns a value in
`[0,1]`, so every displayed and emitted `anomaly_score` lies in `[0,1]`. -/
theorem clampScore_mem_unit (i : ScoreInput) :
    0 ≤ clampScore i ∧ clampScore i ≤ 1 :=
  clamp_unit i

/-- Modelled from the spec: the engine's anomaly classification
(`is_anomaly = anomaly_score >= 0.60`, spec §4.6 and the README's
operational thresholds); the online trainer's code is not under the
source tree. -/
def is_anomaly (s : ℚ) : Bool :=
  decide ((6 : ℚ)/10 ≤ s)

/-- Modelled from the spec: the engine's high-anomaly classification
(`is_high_anomaly = anomaly_score >= 0.85`, spec §4.6 and the README's
operational thresholds); the online trainer's code is not under the
source tree. -/
def is_high_anomaly (s : ℚ) : Bool :=
  decide ((85 : ℚ)/100 ≤ s)

/-- On a score already in `[0,1]`, the clamp is the identity. -/
theorem clampScore_num_of_mem (s : ℚ) (h0 : 0 ≤ s) (h1 : s ≤ 1) :
    clampScore (.num s) = s := by
  unfold clampScore
  have hn : ¬ s < 0 := not_lt.2 h0
  have hn' : ¬ s > 1 := not_lt.2 h1
  simp [hn, hn']

/-- Claim C2 --- For every score `s ∈ [0,1]`, the event is an anomaly iff
`s ≥ 0.60` iff its band is `elevated` or `critical`, and a high anomaly iff
`s ≥ 0.85` iff its band is `critical`: the UI severity bands (`elevated`
with min 0.6, `critical` with min 0.85) realize exactly the engine's two
cut points. -/
theorem thresholds_match_bands (s : ℚ) (h0 : 0 ≤ s) (h1 : s ≤ 1) :
    (is_anomaly s = true ↔
      ((scoreBand (.num s)).id = .elevated ∨ (scoreBand (.num s)).id = .critical)) ∧
    (is_high_anomaly s = true ↔ (scoreBand (.num s)).id = .critical) := by
  have hc := clampScore_num_of_mem s h0 h1
  rcases lt_or_le s (35/100) with ha | ha
  · have hb : ¬ ((35 : ℚ)/100 ≤ s) := by linarith
    have hd : ¬ ((6 : ℚ)/10 ≤ s) := by linarith
    have he : ¬ ((85 : ℚ)/100 ≤ s) := by linarith
    simp [scoreBand, SCORE_BANDS, List.find?, bandMatch, hc, h0, ha, hb, hd, he,
      is_anomaly, is_high_anomaly]
  · rcases lt_or_le s (6/10) with hb | hb
    · have hd : ¬ ((6 : ℚ)/10 ≤ s) := by linarith
      have he : ¬ ((85 : ℚ)/100 ≤ s) := by linarith
      have hf : ¬ s < 35/100 := not_lt.2 ha
      simp [scoreBand, SCORE_BANDS, List.find?, bandMatch, hc, ha, hb, hd, he, hf,
        is_anomaly, is_high_anomaly]
    · rcases lt_or_le s (85/100) with hd | hd
      · have he : ¬ ((85 : ℚ)/100 ≤ s) := by linarith
        have hf : ¬ s < 35/100 := by linarith
        have hg : ¬ s < 6/10 := not_lt.2 hb
        simp [scoreBand, SCORE_BANDS, List.find?, bandMatch, hc, ha, hb, hd, he, hf, hg,
          is_anomaly, is_high_anomaly]
      · have he : s < 101/100 := by linarith
        have hf : ¬ s < 35/100 := by linarith
        have hg : ¬ s < 6/10 := by linarith
        have hh : ¬ s < 85/100 := not_lt.2 hd
        simp [scoreBand, SCORE_BANDS, List.find?, bandMatch, hc, hd, he, hf, hg, hh,
          is_anomaly, is_high_anomaly]
        linarith

/-- Witness for C2 at `s = 0.7`: an anomaly, not high; band `elevated`. -/
theorem thresholds_match_bands_witness :
    (is_anomaly (7/10) = true ↔
      ((scoreBand (.num (7/10))).id = .elevated ∨ (scoreBand (.num (7/10))).id = .critical)) ∧
    (is_high_anomaly (7/10) = true ↔ (scoreBand (.num (7/10))).id = .critical) :=
  thresholds_match_bands (7/10) (by norm_num) (by norm_num)

/-- Claim C8 --- Band totality: for every input (any number, `NaN`, `null`
or `undefined`) the loop in `scoreBand` finds a band, so the fallback
return after the loop is unreachable (`find?` succeeds and produces
exactly `scoreBand`'s answer), exactly one of the four bands matches the
clamped score, and the returned band is one of `SCORE_BANDS`. -/
theorem scoreBand_total (i : ScoreInput) :
    SCORE_BANDS.find? (bandMatch (clampScore i)) = some (scoreBand i) ∧
    (SCORE_BANDS.filter (bandMatch (clampScore i))).length = 1 ∧
    scoreBand i ∈ SCORE_BANDS := by
  obtain ⟨h0, h1⟩ := clamp_unit i
  set s := clampScore i with hs
  rcases lt_or_le s (35/100) with ha | ha
  · have hb : ¬ ((35 : ℚ)/100 ≤ s) := by linarith
    have hd : ¬ ((6 : ℚ)/10 ≤ s) := by linarith
    have he : ¬ ((85 : ℚ)/100 ≤ s) := by linarith
    simp [scoreBand, SCORE_BANDS, List.find?, List.filter, bandMatch, ← hs,
      h0, ha, hb, hd, he]
  · rcases lt_or_le s (6/10) with hb | hb
    · have hd : ¬ ((6 : ℚ)/10 ≤ s) := by linarith
      have he : ¬ ((85 : ℚ)/100 ≤ s) := by linarith
      have hf : ¬ s < 35/100 := not_lt.2 ha
      simp [scoreBand, SCORE_BANDS, List.find?, List.filter, bandMatch, ← hs,
        ha, hb, hd, he, hf]
    · rcases lt_or_le s (85/100) with hd | hd
      · have he : ¬ ((85 : ℚ)/100 ≤ s) := by linarith
        have hf : ¬ s < 35/100 := by linarith
        have hg : ¬ s < 6/10 := not_lt.2 hb
        simp [scoreBand, SCORE_BANDS, List.find?, List.filter, bandMatch, ← hs,
          ha, hb, hd, he, hf, hg]
      · have he : s < 101/100 := by linarith
        have hf : ¬ s < 35/100 := by linarith
        have hg : ¬ s < 6/10 := by linarith
        have hh : ¬ s < 85/100 := not_lt.2 hd
        simp [scoreBand, SCORE_BANDS, List.find?, List.filter, bandMatch, ← hs,
          hd, he, hf, hg, hh]

/-- A Mapbox `step` expression: a base output and a list of
`(stop input, output)` pairs; for ascending stops, the output of the last
stop whose input is `≤ x` applies, the base below the first stop. -/
structure StepExpr where
  base : String
  stops : List (ℚ × String)
deriving DecidableEq, Repr

/-- Evaluation of a Mapbox `step` expression at a numeric input. -/
def evalStep (e : StepExpr) (x : ℚ) : String :=
  e.stops.foldl (fun acc p => if p.1 ≤ x then p.2 else acc) e.base

/-- `mapboxScoreColorExpression` from `ui/lib/utils.ts`: a `step`
expression with base `SCORE_BANDS[0].color`, stepping to
`SCORE_BANDS[i].color` at `SCORE_BANDS[i].min` for `i = 1, 2, 3`. -/
def mapboxScoreColorExpression : StepExpr :=
  ⟨"#60a5fa", [(35/100, "#facc15"), (6/10, "#fb923c"), (85/100, "#ef4444")]⟩

/-- Claim C9 --- For every score `s ∈ [0,1]`, the color selected by the
Mapbox step expression equals `scoreBand(s).color`: the map layer and the
badge/legend use the same score-to-color mapping. -/
theorem mapbox_step_matches_scoreBand (s : ℚ) (h0 : 0 ≤ s) (h1 : s ≤ 1) :
    evalStep mapboxScoreColorExpression s = (scoreBand (.num s)).color := by
  have hc := clampScore_num_of_mem s h0 h1
  rcases lt_or_le s (35/100) with ha | ha
  · have hb : ¬ ((35 : ℚ)/100 ≤ s) := by linarith
    have hd : ¬ ((6 : ℚ)/10 ≤ s) := by linarith
    have he : ¬ ((85 : ℚ)/100 ≤ s) := by linarith
    simp [evalStep, mapboxScoreColorExpression, scoreBand, SCORE_BANDS,
      List.find?, bandMatch, hc, h0, ha, hb, hd, he]
  · rcases lt_or_le s (6/10) with hb | hb
    · have hd : ¬ ((6 : ℚ)/10 ≤ s) := by linarith
      have he : ¬ ((85 : ℚ)/100 ≤ s) := by linarith
      have hf : ¬ s < 35/100 := not_lt.2 ha
      simp [evalStep, mapboxScoreColorExpression, scoreBand, SCORE_BANDS,
        List.find?, bandMatch, hc, ha, hb, hd, he, hf]
    · rcases lt_or_le s (85/100) with hd | hd
      · have he : ¬ ((85 : ℚ)/100 ≤ s) := by linarith
        have hf : ¬ s < 35/100 := by linarith
        have hg : ¬ s < 6/10 := not_lt.2 hb
        simp [evalStep, mapboxScoreColorExpression, scoreBand, SCORE_BANDS,
          List.find?, bandMatch, hc, ha, hb, hd, he, hf, hg]
      · have he : s < 101/100 := by linarith
        have hf : ¬ s < 35/100 := by linarith
        have hg : ¬ s < 6/10 := by linarith
        have hh : ¬ s < 85/100 := not_lt.2 hd
        simp [evalStep, mapboxScoreColorExpression, scoreBand, SCORE_BANDS,
          List.find?, bandMatch, hc, hd, he, hf, hg, hh]

/-- Witness for C9 at `s = 0.5`: both sides are the watch color. -/
theorem mapbox_step_matches_scoreBand_witness :
    evalStep mapboxScoreColorExpression (5/10) = (scoreBand (.num (5/10))).color :=
  mapbox_step_matches_scoreBand (5/10) (by norm_num) (by norm_num)

/-- `clip01` on exact numbers, as used throughout the scoring formulas:
clamp to `[0,1]`. -/
def clip01 (q : ℚ) : ℚ :=
  max 0 (min 1 q)

/-- Modelled from the spec: Score Fusion (§4.6 and the README's scoring
logic); the online trainer's code is not under the source tree.
`anomaly_score = clip01(0.50*ssl + 0.30*hst + 0.20*rel)` with each
component independently clipped to `[0,1]` before combination. -/
def fuseScore (ssl hst rel : ℚ) : ℚ :=
  clip01 (50/100 * clip01 ssl + 30/100 * clip01 hst + 20/100 * clip01 rel)

/-- Modelled from the spec: the relative-error component of Score Fusion
(§4.6); the online trainer's code is not under the source tree.
`relative_error_score = clip01(|residual| / max(predicted_headway_sec,
floor-constant))`. -/
def relative_error_score (residual predicted floor : ℚ) : ℚ :=
  clip01 (|residual| / max predicted floor)

theorem clip01_mem_unit (q : ℚ) : 0 ≤ clip01 q ∧ clip01 q ≤ 1 := by
  unfold clip01
  constructor
  · exact le_max_left 0 (min 1 q)
  · exact max_le (by norm_num) (min_le_left 1 q)

theorem clip01_mono {a b : ℚ} (h : a ≤ b) : clip01 a ≤ clip01 b := by
  unfold clip01
  exact max_le_max le_rfl (min_le_min le_rfl h)

theorem clip01_eq_self {q : ℚ} (h0 : 0 ≤ q) (h1 : q ≤ 1) : clip01 q = q := by
  unfold clip01
  rw [min_eq_right h1, max_eq_right h0]

/-- Claim C3 --- The fused score is the clipped weighted convex combination
`clip01(0.50*ssl + 0.30*hst + 0.20*rel)` of the independently clipped
component scores, and is bounded in `[0,1]` for every input; moreover the
outer clip is redundant once the components are clipped: the convex
combination of the clipped components already lies in `[0,1]`. -/
theorem fuseScore_bounded (ssl hst rel : ℚ) :
    fuseScore ssl hst rel =
      clip01 (50/100 * clip01 ssl + 30/100 * clip01 hst + 20/100 * clip01 rel) ∧
    0 ≤ fuseScore ssl hst rel ∧ fuseScore ssl hst rel ≤ 1 ∧
    fuseScore ssl hst rel =
      50/100 * clip01 ssl + 30/100 * clip01 hst + 20/100 * clip01 rel := by
  obtain ⟨ha0, ha1⟩ := clip01_mem_unit ssl
  obtain ⟨hb0, hb1⟩ := clip01_mem_unit hst
  obtain ⟨hc0, hc1⟩ := clip01_mem_unit rel
  have hsum0 : 0 ≤ 50/100 * clip01 ssl + 30/100 * clip01 hst + 20/100 * clip01 rel := by
    nlinarith
  have hsum1 : 50/100 * clip01 ssl + 30/100 * clip01 hst + 20/100 * clip01 rel ≤ 1 := by
    nlinarith
  have hid : fuseScore ssl hst rel =
      50/100 * clip01 ssl + 30/100 * clip01 hst + 20/100 * clip01 rel := by
    unfold fuseScore
    exact clip01_eq_self hsum0 hsum1
  refine ⟨rfl, ?_, ?_, hid⟩
  · rw [hid]; exact hsum0
  · rw [hid]; exact hsum1

/-- Claim C7 --- Monotonicity of the relative-error component: holding
`predicted_headway_sec` and the floor constant fixed, with a positive
floor, a residual of larger magnitude never gets a smaller
`relative_error_score`. -/
theorem relative_error_score_mono (r1 r2 predicted floor : ℚ)
    (hf : 0 < floor) (h : |r1| ≤ |r2|) :
    relative_error_score r1 predicted floor ≤ relative_error_score r2 predicted floor := by
  unfold relative_error_score
  apply clip01_mono
  have hd : 0 < max predicted floor := lt_of_lt_of_le hf (le_max_right predicted floor)
  exact div_le_div_of_nonneg_right h hd.le

/-- Witness for C7 at `r1 = -100`, `r2 = 300`, `predicted = 240`,
`floor = 30`. -/
theorem relative_error_score_mono_witness :
    relative_error_score (-100) 240 30 ≤ relative_error_score 300 240 30 :=
  relative_error_score_mono (-100) 300 240 30 (by norm_num) (by norm_num)

/-! ## The online anomaly-scoring engine

The worker that implements the engine is not under the source tree (only
the README, the UI, and a migration are), so the engine below is modelled
from the spec, component by component (§3–§6). Non-finite IEEE values are
modelled by rationals whose magnitude reaches the double-overflow
threshold `2^1024`. -/

/-- Modelled from the spec: the engine construction parameters (§6
configuration surface); the worker code is not under the source tree. -/
structure EngineConfig where
  eps : ℚ
  reg : ℚ
  maxStep : ℚ
  floor : ℚ
  smoothing : ℚ
  minCount : ℕ
  calibCap : ℕ
  hstTrees : ℕ
  hstWindow : ℕ
  driftWindow : ℕ
  driftBound : ℚ
  oooTolerance : ℚ
  seed : ℕ
deriving DecidableEq, Repr

/-- Modelled from the spec: `ArrivalEvent` (§3); the worker code is not
under the source tree. -/
structure ArrivalEvent where
  stop_id : String
  route_id : String
  trip_id : String
  observed_at : ℚ
  sequence_hint : ℕ
deriving DecidableEq, Repr

/-- Modelled from the spec: one randomized space-partitioning tree of the
Streaming Anomaly Forest (§4.4), at depth one per feature: a split
threshold per feature drawn from the observed feature ranges, a mass per
leaf, and an age used for the staggered rolling re-initialization. -/
structure HstTree where
  thresholds : List ℚ
  masses : List (ℕ × ℕ)
  age : ℕ
deriving DecidableEq, Repr

/-- Modelled from the spec: `KeyModelState` (§3) — predictor weights,
calibrator quantile sketch, forest state, drift-monitor window, dedup and
headway bookkeeping, and the per-key counters. -/
structure KeyModelState where
  weights : List ℚ
  seen : List (String × String)
  lastArrival : Option ℚ
  recent : List ℚ
  calib : List ℚ
  lo : List ℚ
  hi : List ℚ
  trees : List HstTree
  rng : ℕ
  driftBuf : List ℚ
  rows_seen : ℕ
  rows_updated : ℕ
  drift_events : ℕ
  numeric_rejections : ℕ
deriving DecidableEq, Repr

/-- Modelled from the spec: `ScoredEvent` (§3), the output of Score
Fusion. -/
structure ScoredEvent where
  stop_id : String
  route_id : String
  headway_sec : ℚ
  predicted_headway_sec : ℚ
  residual : ℚ
  ssl_residual_score : ℚ
  hst_score : ℚ
  relative_error_score : ℚ
  anomaly_score : ℚ
  is_anomaly : Bool
  is_high_anomaly : Bool
  observed_at : ℚ
  flagged : Bool
deriving DecidableEq, Repr

/-- Modelled from the spec: the Engine State Store (§4.7), the mapping
from `(stop_id, route_id)` key to `KeyModelState`. -/
structure EngineState where
  keys : List ((String × String) × KeyModelState)
deriving DecidableEq, Repr

/-- Dot product of a weight vector with a feature vector. -/
def dot (ws xs : List ℚ) : ℚ :=
  (List.zip ws xs).foldl (fun acc p => acc + p.1 * p.2) 0

/-- Squared euclidean norm of a feature vector. -/
def normSq (xs : List ℚ) : ℚ :=
  xs.foldl (fun acc x => acc + x * x) 0

/-- The IEEE double-precision overflow threshold: a computed magnitude at
or beyond `2^1024` is not representable as a finite double. -/
def FMAX : ℚ := 2 ^ 1024

/-- All parameters of a candidate weight vector are finite (no overflow
to `±Infinity`, hence no `NaN` from subsequent arithmetic on them). -/
def allFinite (ws : List ℚ) : Bool :=
  ws.all (fun w => decide (|w| < FMAX))

/-- Modelled from the spec: the passive-aggressive hinge loss of the
Online Predictor (§4.2), `max(0, |prediction − actual| − ε)`. -/
def paLoss (cfg : EngineConfig) (ws xs : List ℚ) (actual : ℚ) : ℚ :=
  max 0 (|actual - dot ws xs| - cfg.eps)

/-- Modelled from the spec: the passive-aggressive step size (§4.2),
`loss / (‖features‖² + regularization)` bounded by the maximum step size
(a zero denominator, which in floats yields `+∞`, is absorbed by the
bound). -/
def paTau (cfg : EngineConfig) (ws xs : List ℚ) (actual : ℚ) : ℚ :=
  let d := normSq xs + cfg.reg
  if d = 0 then cfg.maxStep else min cfg.maxStep (paLoss cfg ws xs actual / d)

/-- Modelled from the spec: the candidate updated weight vector of the
Online Predictor (§4.2), `w + τ·sign(residual)·x`. -/
def paCandidate (cfg : EngineConfig) (ws xs : List ℚ) (actual : ℚ) : List ℚ :=
  let tau := paTau cfg ws xs actual
  let sgn : ℚ := if dot ws xs ≤ actual then 1 else -1
  (List.zip ws xs).map (fun p => p.1 + tau * sgn * p.2)

/-- Result of one predictor step: the (possibly updated) weights, whether
the update was applied, whether it was rejected as numerically unstable,
and the pre-update prediction used for scoring. -/
structure PredResult where
  weights : List ℚ
  updated : Bool
  rejected : Bool
  prediction : ℚ
deriving DecidableEq, Repr

/-- Modelled from the spec: one step of the Online Predictor (§4.2): no
update when the loss is zero; otherwise the update is applied only when
the candidate weights are all finite, and rejected (previous weights
kept) when they are not. The event is always scored with the pre-update
prediction. -/
def paStep (cfg : EngineConfig) (ws xs : List ℚ) (actual : ℚ) : PredResult :=
  let pred := dot ws xs
  if paLoss cfg ws xs actual = 0 then ⟨ws, false, false, pred⟩
  else
    let cand := paCandidate cfg ws xs actual
    if allFinite cand then ⟨cand, true, false, pred⟩
    else ⟨ws, false, true, pred⟩

/-- Modelled from the spec: the predictor sub-update of a scoring pass on
a key's state (§4.2 failure policy, §7 NumericInstability): applies
`paStep` and records the outcome in the key's counters, returning the
pre-update prediction the event is scored with. -/
def paApply (cfg : EngineConfig) (ks : KeyModelState) (xs : List ℚ) (actual : ℚ) :
    KeyModelState × ℚ :=
  let r := paStep cfg ks.weights xs actual
  ({ ks with
      weights := r.weights,
      rows_updated := ks.rows_updated + (if r.updated then 1 else 0),
      numeric_rejections := ks.numeric_rejections + (if r.rejected then 1 else 0) },
   r.prediction)

/-- Mean of a list of rationals (0 for the empty list). -/
def listMean (xs : List ℚ) : ℚ :=
  if xs.length = 0 then 0 else xs.sum / xs.length

/-- Push a value at the front of a bounded buffer, evicting the oldest
entries beyond the capacity (fixed-memory decay). -/
def pushCapped (cap : ℕ) (x : ℚ) (xs : List ℚ) : List ℚ :=
  (x :: xs).take cap

/-- Modelled from the spec: the streaming quantile estimate of the
Residual Quantile Calibrator (§4.3) over its fixed-memory sketch: the
empirical `q`-quantile of the retained residual magnitudes. -/
def quantileOf (q : ℚ) (xs : List ℚ) : ℚ :=
  let s := xs.insertionSort (· ≤ ·)
  s.getD (min (s.length - 1) (⌊q * s.length⌋.toNat)) 0

/-- Modelled from the spec: the self-supervised residual severity score
(§4.3): `clip01((|residual| − q90) / (q99 − q90 + smoothing))`, reported
as 0 until the key reaches the cold-start minimum observation count. -/
def sslScore (cfg : EngineConfig) (rowsSeen : ℕ) (calib : List ℚ) (residual : ℚ) : ℚ :=
  if rowsSeen < cfg.minCount then 0
  else
    let q90 := quantileOf (90/100) calib
    let q99 := quantileOf (99/100) calib
    clip01 ((|residual| - q90) / (q99 - q90 + cfg.smoothing))

/-- A linear congruential pseudo-random generator step (the engine's
internal randomness, seeded from the configuration). -/
def lcg (s : ℕ) : ℕ :=
  (1664525 * s + 1013904223) % 4294967296

/-- A pseudo-random fraction in `[0,1)` from an rng state. -/
def drawFrac (s : ℕ) : ℚ :=
  ((s % 1000 : ℕ) : ℚ) / 1000

/-- Modelled from the spec: split boundaries of a forest tree drawn from
the observed feature ranges (§4.4 learning phase), one per feature, at
rng-determined fractions. -/
def drawThresholds (rng : ℕ) (lo hi : List ℚ) : List ℚ × ℕ :=
  (List.zip lo hi).foldl
    (fun (acc : List ℚ × ℕ) p =>
      let r := lcg acc.2
      (acc.1 ++ [p.1 + drawFrac r * (p.2.1 - p.1)], r))
    ([], rng)

/-- The leaf a feature vector is routed to: the binary signature of the
per-feature split comparisons. -/
def leafOf (thresholds feats : List ℚ) : ℕ :=
  (List.zip feats thresholds).foldl
    (fun acc p => 2 * acc + (if p.1 ≤ p.2 then 0 else 1)) 0

/-- Accumulated mass of a leaf. -/
def massOf (masses : List (ℕ × ℕ)) (l : ℕ) : ℕ :=
  match masses.find? (fun p => p.1 == l) with
  | some p => p.2
  | none => 0

/-- Add one unit of mass to a leaf. -/
def bumpMass (masses : List (ℕ × ℕ)) (l : ℕ) : List (ℕ × ℕ) :=
  if (masses.find? (fun p => p.1 == l)).isSome then
    masses.map (fun p => if p.1 == l then (p.1, p.2 + 1) else p)
  else (l, 1) :: masses

/-- Modelled from the spec: one tree's anomaly signal (§4.4), the inverse
of the mass accumulated by the leaf the point falls into — sparsely
populated leaves score higher. -/
def treeScore (t : HstTree) (feats : List ℚ) : ℚ :=
  1 / (1 + (massOf t.masses (leafOf t.thresholds feats) : ℚ))

/-- Modelled from the spec: `hst_score = clip01(normalized ensemble
score)` (§4.4), the clipped average of the per-tree signals. -/
def forestScore (trees : List HstTree) (feats : List ℚ) : ℚ :=
  if trees.length = 0 then 0
  else clip01 ((trees.map (fun t => treeScore t feats)).sum / trees.length)

/-- Modelled from the spec: one streaming step of a forest tree (§4.4):
the tree is re-initialized (boundaries redrawn, masses cleared) when its
age reaches the rolling window offset by the tree's index — staggering
the re-initializations across the ensemble — and otherwise accumulates
the point's mass in its leaf and ages by one. -/
def stepTree (cfg : EngineConfig) (lo hi : List ℚ) (idx rng : ℕ) (t : HstTree)
    (feats : List ℚ) : HstTree × ℕ :=
  if cfg.hstWindow + idx ≤ t.age then
    let p := drawThresholds rng lo hi
    (⟨p.1, [], 0⟩, p.2)
  else
    ({ t with masses := bumpMass t.masses (leafOf t.thresholds feats), age := t.age + 1 },
     rng)

/-- Modelled from the spec: one streaming step of the whole forest (§4.4),
threading the rng through the trees. -/
def stepForest (cfg : EngineConfig) (lo hi : List ℚ) (rng : ℕ) (trees : List HstTree)
    (feats : List ℚ) : List HstTree × ℕ :=
  let r := trees.foldl
    (fun (acc : List HstTree × ℕ × ℕ) t =>
      let s := stepTree cfg lo hi acc.2.1 acc.2.2 t feats
      (acc.1 ++ [s.1], acc.2.1 + 1, s.2))
    ([], 0, rng)
  (r.1, r.2.2)

/-- Modelled from the spec: the Drift Monitor's adaptive-window change
detector (§4.5): compares the means of the two sub-windows of the recent
residual-magnitude stream once the window is full. -/
def driftDetects (cfg : EngineConfig) (buf : List ℚ) : Bool :=
  if buf.length < cfg.driftWindow then false
  else
    let h := buf.length / 2
    decide (cfg.driftBound < |listMean (buf.take h) - listMean (buf.drop h)|)

/-- The predictor's default/prior weight vector (one weight per feature),
used at key creation and on drift reset. -/
def initWeights : List ℚ := [0, 0, 0, 0]

/-- Modelled from the spec: the deterministic, pure feature vector of a
key (§4.1): a bias term, the time-of-day bucket, the day-of-week, and the
rolling mean of the key's recent headways. -/
def featureVec (ks : KeyModelState) (t : ℚ) : List ℚ :=
  [1, (((⌊t⌋ % 86400) / 3600 : ℤ) : ℚ), (((⌊t⌋ / 86400) % 7 : ℤ) : ℚ), listMean ks.recent]

/-- Modelled from the spec: the fresh `KeyModelState` created lazily on a
key's first observation (§3), with the rng seeded from the
configuration's seed. -/
def freshKeyState (cfg : EngineConfig) : KeyModelState :=
  ⟨initWeights, [], none, [], [], [], [],
    List.replicate cfg.hstTrees ⟨[], [], 0⟩, cfg.seed, [], 0, 0, 0, 0⟩

/-- Look a key up in the Engine State Store. -/
def getKey (st : EngineState) (k : String × String) : Option KeyModelState :=
  match st.keys.find? (fun p => p.1 == k) with
  | some p => some p.2
  | none => none

/-- Write a key's state back to the Engine State Store (in place when the
key exists, prepended otherwise). -/
def setKey (st : EngineState) (k : String × String) (ks : KeyModelState) : EngineState :=
  if (st.keys.find? (fun p => p.1 == k)).isSome then
    ⟨st.keys.map (fun p => if p.1 == k then (k, ks) else p)⟩
  else ⟨(k, ks) :: st.keys⟩

/-- Modelled from the spec: one scoring pass for one `ArrivalEvent`
(§4.1–§4.6, §2 data flow): dedup by `(stop_id, trip_id)` (a duplicate is
discarded silently before any mutation); bootstrap on a key's first
arrival; out-of-order handling with the tolerance window; then predictor,
calibrator, forest, drift monitor and score fusion over the key's state. -/
def processEvent (cfg : EngineConfig) (st : EngineState) (ev : ArrivalEvent) :
    EngineState × Option ScoredEvent :=
  let key := (ev.stop_id, ev.route_id)
  let ks0 := (getKey st key).getD (freshKeyState cfg)
  if (ev.stop_id, ev.trip_id) ∈ ks0.seen then (st, none)
  else
    let ks := { ks0 with
      seen := (ev.stop_id, ev.trip_id) :: ks0.seen,
      rows_seen := ks0.rows_seen + 1 }
    match ks0.lastArrival with
    | none => (setKey st key { ks with lastArrival := some ev.observed_at }, none)
    | some last =>
      if ev.observed_at ≤ last ∧ cfg.oooTolerance < last - ev.observed_at then
        (setKey st key ks, none)
      else
        let flagged := decide (ev.observed_at ≤ last)
        let headway := ev.observed_at - last
        let feats := featureVec ks ev.observed_at
        let pr := paApply cfg ks feats headway
        let ks1 := pr.1
        let pred := pr.2
        let residual := headway - pred
        let ks2 := { ks1 with calib := pushCapped cfg.calibCap |residual| ks1.calib }
        let ssl := sslScore cfg ks2.rows_seen ks2.calib residual
        let lo := if ks2.lo = [] then feats else List.zipWith min ks2.lo feats
        let hi := if ks2.hi = [] then feats else List.zipWith max ks2.hi feats
        let hst := forestScore ks2.trees feats
        let fr := stepForest cfg lo hi ks2.rng ks2.trees feats
        let ks3 := { ks2 with
          lo := lo, hi := hi, trees := fr.1, rng := fr.2,
          recent := pushCapped 8 headway ks2.recent,
          lastArrival := some (max last ev.observed_at) }
        let buf := pushCapped cfg.driftWindow |residual| ks3.driftBuf
        let ks4 :=
          if driftDetects cfg buf then
            { ks3 with weights := initWeights, calib := [], driftBuf := [],
                       drift_events := ks3.drift_events + 1 }
          else { ks3 with driftBuf := buf }
        let rel := relative_error_score residual pred cfg.floor
        let score := fuseScore ssl hst rel
        (setKey st key ks4,
         some ⟨ev.stop_id, ev.route_id, headway, pred, residual, ssl, hst, rel, score,
               is_anomaly score, is_high_anomaly score, ev.observed_at, flagged⟩)

/-- Modelled from the spec: `score_batch` (§6), the engine's sole entry
point: process a batch of arrival events to completion, in order,
returning the final engine state and the scored events. -/
def scoreBatch (cfg : EngineConfig) (st : EngineState) (obs : List ArrivalEvent) :
    EngineState × List ScoredEvent :=
  obs.foldl
    (fun (acc : EngineState × List ScoredEvent) ev =>
      let r := processEvent cfg acc.1 ev
      (r.1, acc.2 ++ r.2.toList))
    (st, [])

/-- Claim C4 --- Numeric-instability atomicity: for every key state and
observation, if the attempted predictor weight update would produce a
non-finite model parameter, the update is rejected: the key's state after
the predictor sub-update equals its state before it except that the
per-key rejection counter is incremented (prior weights retained, no
field corrupted, `rows_updated` untouched), and the event is still scored
with the pre-update prediction. The sub-update is a total function, so no
error escapes the scoring pass. -/
theorem numeric_instability_atomic (cfg : EngineConfig) (ks : KeyModelState)
    (xs : List ℚ) (actual : ℚ)
    (hl : paLoss cfg ks.weights xs actual ≠ 0)
    (hc : allFinite (paCandidate cfg ks.weights xs actual) = false) :
    (paApply cfg ks xs actual).1 =
      { ks with numeric_rejections := ks.numeric_rejections + 1 } ∧
    (paApply cfg ks xs actual).2 = dot ks.weights xs := by
  unfold paApply paStep
  simp [hl, hc]

/-- Configuration used by the concrete engine witnesses: ε = 0, unit
regularization, maximum step `2^1024`, floor 30 s, unit smoothing, no
cold-start minimum, sketch capacity 64, no trees, window 100, drift
window 40, drift bound 50, out-of-order tolerance 120 s, seed 1. -/
def witnessCfg : EngineConfig :=
  ⟨0, 1, 2 ^ 1024, 30, 1, 0, 64, 0, 100, 40, 50, 120, 1⟩

/-- Key state used by the C4 witness: a fresh key whose single weight is
`2^1023`, half the overflow threshold. -/
def wOverflowKs : KeyModelState :=
  { freshKeyState witnessCfg with weights := [2 ^ 1023] }

theorem wOverflow_dot : dot wOverflowKs.weights [1] = 2 ^ 1023 := by
  simp [wOverflowKs, freshKeyState, dot]

theorem wOverflow_loss :
    paLoss witnessCfg wOverflowKs.weights [1] (3 * 2 ^ 1023) = 2 ^ 1024 := by
  unfold paLoss
  rw [wOverflow_dot]
  have h1 : (3 * 2 ^ 1023 - 2 ^ 1023 : ℚ) = 2 ^ 1024 := by ring
  rw [h1, abs_of_nonneg (by positivity)]
  have h2 : witnessCfg.eps = 0 := rfl
  rw [h2, sub_zero]
  exact max_eq_right (by positivity)

theorem wOverflow_cand :
    paCandidate witnessCfg wOverflowKs.weights [1] (3 * 2 ^ 1023) = [2 ^ 1024] := by
  have ht : paTau witnessCfg wOverflowKs.weights [1] (3 * 2 ^ 1023) = 2 ^ 1023 := by
    unfold paTau
    rw [wOverflow_loss]
    have hn : normSq [(1 : ℚ)] + witnessCfg.reg = 2 := by
      norm_num [normSq, witnessCfg]
    rw [hn]
    have h2 : ((2 : ℚ) ^ 1024 / 2) = 2 ^ 1023 := by ring
    rw [if_neg (by norm_num), h2]
    have h3 : witnessCfg.maxStep = 2 ^ 1024 := rfl
    rw [h3]
    exact min_eq_right (by norm_num)
  unfold paCandidate
  rw [ht, wOverflow_dot]
  have hle : ((2 : ℚ) ^ 1023 ≤ 3 * 2 ^ 1023) := by norm_num
  rw [if_pos hle]
  have hw : wOverflowKs.weights = [2 ^ 1023] := rfl
  rw [hw]
  simp
  ring

/-- Witness for C4: with weight `2^1023`, feature `1` and actual value
`3·2^1023`, the candidate weight is `2^1024`, which overflows a double;
the update is rejected, only the rejection counter moves, and the event
is scored with the pre-update prediction. -/
theorem numeric_instability_atomic_witness :
    (paApply witnessCfg wOverflowKs [1] (3 * 2 ^ 1023)).1 =
      { wOverflowKs with numeric_rejections := wOverflowKs.numeric_rejections + 1 } ∧
    (paApply witnessCfg wOverflowKs [1] (3 * 2 ^ 1023)).2 = dot wOverflowKs.weights [1] :=
  numeric_instability_atomic witnessCfg wOverflowKs [1] (3 * 2 ^ 1023)
    (by rw [wOverflow_loss]; positivity)
    (by rw [wOverflow_cand]; simp [allFinite, FMAX, abs_of_nonneg])

/-- Claim C5 --- Duplicate idempotence: for every engine state and every
`ArrivalEvent` whose dedup identity `(stop_id, trip_id)` has already been
seen for its key, processing the event leaves the whole engine state —
hence `rows_updated` and every field of the key's `KeyModelState` —
unchanged, and the duplicate is discarded silently (no observation, no
error). -/
theorem duplicate_idempotent (cfg : EngineConfig) (st : EngineState)
    (ev : ArrivalEvent) (ks : KeyModelState)
    (hk : getKey st (ev.stop_id, ev.route_id) = some ks)
    (hd : (ev.stop_id, ev.trip_id) ∈ ks.seen) :
    processEvent cfg st ev = (st, none) := by
  simp only [processEvent, hk, Option.getD_some]
  simp [hd]

/-- Key state used by the C5 witness: identity `("S1","T1")` already
seen. -/
def wDupKs : KeyModelState :=
  { freshKeyState witnessCfg with seen := [("S1", "T1")], lastArrival := some 0 }

/-- Engine state used by the C5 witness. -/
def wDupSt : EngineState := ⟨[(("S1", "R1"), wDupKs)]⟩

/-- Arrival event used by the C5 witness: same `(stop_id, trip_id)`
identity as the one already seen for key `("S1","R1")`. -/
def wDupEv : ArrivalEvent := ⟨"S1", "R1", "T1", 100, 0⟩

/-- Witness for C5: replaying the already-seen event leaves the engine
state unchanged and emits nothing. -/
theorem duplicate_idempotent_witness :
    processEvent witnessCfg wDupSt wDupEv = (wDupSt, none) :=
  duplicate_idempotent witnessCfg wDupSt wDupEv wDupKs (by decide) (by decide)

/-- Claim C6 --- Determinism modulo seed: `score_batch` is a function of
the engine configuration (the random seed is a configuration field), the
initial engine state, and the input observation sequence: two runs with
the same configuration, the same initial state and the same input
sequence produce identical final states and identical sequences of
`ScoredEvent`s. -/
theorem scoreBatch_deterministic (cfg₁ cfg₂ : EngineConfig) (st₁ st₂ : EngineState)
    (obs₁ obs₂ : List ArrivalEvent)
    (hc : cfg₁ = cfg₂) (hs : st₁ = st₂) (ho : obs₁ = obs₂) :
    scoreBatch cfg₁ st₁ obs₁ = scoreBatch cfg₂ st₂ obs₂ := by
  subst hc
  subst hs
  subst ho
  rfl

/-- Witness for C6: two runs of the batch entry point on a concrete
one-event batch from the empty engine agree. -/
theorem scoreBatch_deterministic_witness :
    scoreBatch witnessCfg ⟨[]⟩ [⟨"S1", "R1", "T1", 100, 0⟩] =
      scoreBatch witnessCfg ⟨[]⟩ [⟨"S1", "R1", "T1", 100, 0⟩] :=
  scoreBatch_deterministic witnessCfg witnessCfg ⟨[]⟩ ⟨[]⟩
    [⟨"S1", "R1", "T1", 100, 0⟩] [⟨"S1", "R1", "T1", 100, 0⟩] rfl rfl rfl

/-! ## Base-path handling (`ui/lib/basePath.ts`)

Strings are embedded as `List Char`; `begins` is `String.startsWith`. -/

/-- `pre` is an initial run of `s` (JavaScript `s.startsWith(pre)`). -/
def begins : List Char → List Char → Bool
  | [], _ => true
  | _ :: _, [] => false
  | p :: ps, c :: cs => p == c && begins ps cs

/-- The effect of `.replace(/\/+$/, '')`: drop every trailing `'/'`. -/
def dropTrailingSlashes : List Char → List Char
  | [] => []
  | c :: cs =>
    match dropTrailingSlashes cs with
    | [] => if c = '/' then [] else [c]
    | d :: ds => c :: d :: ds

/-- `BASE_PATH` derivation from `ui/lib/basePath.ts`: an empty env value
gives `''`; otherwise a leading slash is ensured; a bare `'/'` collapses
to `''`; trailing slashes are stripped. -/
def basePathOf (raw : List Char) : List Char :=
  let b := if raw = [] then [] else if begins ['/'] raw then raw else '/' :: raw
  if b = ['/'] then [] else dropTrailingSlashes b

/-- The `normalized` value inside `withBasePath`: ensure a leading
slash. -/
def normalizeSlash (path : List Char) : List Char :=
  if begins ['/'] path then path else '/' :: path

/-- `withBasePath` from `ui/lib/basePath.ts`: the empty path maps to the
base path (or `'/'` when there is none); otherwise the path is normalized
to a leading slash and prefixed with the base path unless it is the base
path or already carries it. -/
def withBasePath (bp path : List Char) : List Char :=
  if path = [] then (if bp = [] then ['/'] else bp)
  else if bp = [] then normalizeSlash path
  else if normalizeSlash path = bp ∨ begins (bp ++ ['/']) (normalizeSlash path) = true
    then normalizeSlash path
  else bp ++ normalizeSlash path

theorem begins_append (x y z : List Char) :
    begins (x ++ y) (x ++ z) = begins y z := by
  induction x with
  | nil => rfl
  | cons c cs ih => simp [begins, ih]

theorem begins_slash_normalizeSlash (path : List Char) :
    begins ['/'] (normalizeSlash path) = true := by
  unfold normalizeSlash
  by_cases h : begins ['/'] path = true
  · simp [h]
  · simp [h, begins]

theorem normalizeSlash_of_slash (y : List Char) (hy : begins ['/'] y = true) :
    normalizeSlash y = y := by
  unfold normalizeSlash
  simp [hy]

theorem begins_slash_ne_nil (y : List Char) (hy : begins ['/'] y = true) : y ≠ [] := by
  intro h
  rw [h] at hy
  simp [begins] at hy

theorem dropTrailingSlashes_cons (c : Char) (cs : List Char) :
    dropTrailingSlashes (c :: cs) = [] ∨
    ∃ ds, dropTrailingSlashes (c :: cs) = c :: ds := by
  rw [dropTrailingSlashes]
  cases h : dropTrailingSlashes cs with
  | nil =>
      by_cases hc : c = '/'
      · simp [hc]
      · simp [hc]
  | cons d ds => simp

/-- The derived `BASE_PATH` is either empty or starts with `'/'`. -/
theorem basePathOf_inv (raw : List Char) :
    basePathOf raw = [] ∨ ∃ t, basePathOf raw = '/' :: t := by
  have key : ∀ cs : List Char,
      ((if ('/' :: cs : List Char) = ['/'] then []
        else dropTrailingSlashes ('/' :: cs)) = [] ∨
       ∃ t, (if ('/' :: cs : List Char) = ['/'] then []
        else dropTrailingSlashes ('/' :: cs)) = '/' :: t) := by
    intro cs
    by_cases h2 : ('/' :: cs : List Char) = ['/']
    · rw [if_pos h2]
      exact Or.inl rfl
    · rw [if_neg h2]
      exact dropTrailingSlashes_cons '/' cs
  unfold basePathOf
  by_cases h0 : raw = []
  · simp [h0, dropTrailingSlashes]
  · by_cases h1 : begins ['/'] raw = true
    · cases raw with
      | nil => exact absurd rfl h0
      | cons c cs =>
          have hc : c = '/' := by
            simp [begins] at h1
            exact h1.symm
          subst hc
          simpa [h0, h1] using key cs
    · simpa [h0, h1] using key raw

/-- Any output of `withBasePath` with a well-formed base path starts with
`'/'`. -/
theorem withBasePath_slash (bp path : List Char)
    (hbp : bp = [] ∨ ∃ t, bp = '/' :: t) :
    begins ['/'] (withBasePath bp path) = true := by
  unfold withBasePath
  by_cases hp : path = []
  · rw [if_pos hp]
    rcases hbp with hb | ⟨t, hb⟩
    · rw [if_pos hb]
      decide
    · have hbne : bp ≠ [] := by simp [hb]
      rw [if_neg hbne, hb]
      simp [begins]
  · rw [if_neg hp]
    by_cases hbe : bp = []
    · rw [if_pos hbe]
      exact begins_slash_normalizeSlash path
    · rw [if_neg hbe]
      by_cases hcond : normalizeSlash path = bp ∨
          begins (bp ++ ['/']) (normalizeSlash path) = true
      · rw [if_pos hcond]
        exact begins_slash_normalizeSlash path
      · rw [if_neg hcond]
        rcases hbp with hb | ⟨t, hb⟩
        · exact absurd hb hbe
        · rw [hb]
          simp [begins]

/-- A nonempty slash-leading value that is the base path, or already
carries the base-path prefix, or faces an empty base path, is a fixed
point of `withBasePath`. -/
theorem withBasePath_fix (bp y : List Char)
    (hy : begins ['/'] y = true)
    (hc : bp = [] ∨ y = bp ∨ begins (bp ++ ['/']) y = true) :
    withBasePath bp y = y := by
  have hne := begins_slash_ne_nil y hy
  have hn := normalizeSlash_of_slash y hy
  unfold withBasePath
  rw [if_neg hne]
  by_cases hbe : bp = []
  · rw [if_pos hbe]
    exact hn
  · rw [if_neg hbe]
    rcases hc with hb | hb | hb
    · exact absurd hb hbe
    · have hcond : normalizeSlash y = bp ∨
          begins (bp ++ ['/']) (normalizeSlash y) = true := Or.inl (hn.trans hb)
      rw [if_pos hcond]
      exact hn
    · have hcond : normalizeSlash y = bp ∨
          begins (bp ++ ['/']) (normalizeSlash y) = true := Or.inr (by rw [hn]; exact hb)
      rw [if_pos hcond]
      exact hn

/-- With a nonempty well-formed base path, every output of `withBasePath`
is the base path itself or carries the base-path prefix. -/
theorem withBasePath_carries (t path : List Char) :
    withBasePath ('/' :: t) path = '/' :: t ∨
    begins (('/' :: t) ++ ['/']) (withBasePath ('/' :: t) path) = true := by
  have hbne : ('/' :: t : List Char) ≠ [] := by simp
  unfold withBasePath
  by_cases hp : path = []
  · rw [if_pos hp, if_neg hbne]
    exact Or.inl rfl
  · rw [if_neg hp, if_neg hbne]
    by_cases hcond : normalizeSlash path = '/' :: t ∨
        begins (('/' :: t) ++ ['/']) (normalizeSlash path) = true
    · rw [if_pos hcond]
      rcases hcond with hc | hc
      · exact Or.inl hc
      · exact Or.inr hc
    · rw [if_neg hcond]
      right
      rw [begins_append ('/' :: t) ['/'] (normalizeSlash path)]
      exact begins_slash_normalizeSlash path

/-- Claim C10 --- Base-path idempotence and normalization: for every path
and every `BASE_PATH` derived from the environment,
`withBasePath (withBasePath path) = withBasePath path`, and the returned
string always begins with `'/'` — a path already carrying the base prefix
is never prefixed a second time. -/
theorem withBasePath_idem (raw path : List Char) :
    begins ['/'] (withBasePath (basePathOf raw) path) = true ∧
    withBasePath (basePathOf raw) (withBasePath (basePathOf raw) path) =
      withBasePath (basePathOf raw) path := by
  have hbp := basePathOf_inv raw
  have hy := withBasePath_slash (basePathOf raw) path hbp
  refine ⟨hy, ?_⟩
  apply withBasePath_fix _ _ hy
  rcases hbp with hb | ⟨t, hb⟩
  · exact Or.inl hb
  · rw [hb]
    rcases withBasePath_carries t path with hc | hc
    · exact Or.inr (Or.inl hc)
    · exact Or.inr (Or.inr hc)

end NycSubway
